import Mathlib

/-!
Verification of the scRNA preprocessing pipeline's orchestration layer and
notebook stages, as a shallow embedding of the repository's code
(workflow/Snakefile, config/config.yaml, and the analysis notebooks).

Definitions are translated from the source; theorems settle the spec's
claims about them.
-/

/-! ## Snakefile: parameter expander (rule all)

`rule all` requests, besides the preprocessing subset artifact, one
checkpoint `.done` file per point of the Cartesian product of the six
`dim_reduc` parameter domains declared in `config/config.yaml`.  Snakemake's
`expand` formats every combination of the given value lists into the path
template; values are rendered as strings.
-/

/-- The checkpoint path template of `rule all`:
`results/analysis/<filename>/dim_reduc/checkpoints/{layer}__{scale}__{genes}__{cc}__{pca}__{umap}.done`. -/
def checkpointPath (filename layer scale genes cc pca umap : String) : String :=
  "results/analysis/" ++ filename ++ "/dim_reduc/checkpoints/" ++
    layer ++ "__" ++ scale ++ "__" ++ genes ++ "__" ++ cc ++ "__" ++
    pca ++ "__" ++ umap ++ ".done"

/-- A point of the dimensionality-reduction parameter grid: one choice per
`dim_reduc` config dimension, in Snakemake's string rendering. -/
structure GridPoint where
  layer : String
  scale : String
  genes : String
  cc : String
  pca : String
  umap : String
deriving DecidableEq, Repr

/-- Cartesian product of the six parameter domains, as Snakemake's `expand`
enumerates it. -/
def gridPoints (layers scales geneSels ccs pcas umaps : List String) : List GridPoint :=
  layers.flatMap fun l =>
    scales.flatMap fun s =>
      geneSels.flatMap fun g =>
        ccs.flatMap fun c =>
          pcas.flatMap fun p =>
            umaps.map fun u => ⟨l, s, g, c, p, u⟩

/-- The checkpoint path bound at one grid point. -/
def pathOf (filename : String) (t : GridPoint) : String :=
  checkpointPath filename t.layer t.scale t.genes t.cc t.pca t.umap

/-- The list of checkpoint paths `expand` produces: one per grid point. -/
def expandCheckpoints (filename : String)
    (layers scales geneSels ccs pcas umaps : List String) : List String :=
  (gridPoints layers scales geneSels ccs pcas umaps).map (pathOf filename)

/-- `dim_reduc.layer_to_use` from `config/config.yaml`. -/
def cfg_layer_to_use : List String := ["log1p_norm_of_soupX_counts"]

/-- `dim_reduc.scale_data_before_pca` from `config/config.yaml`. -/
def cfg_scale_data : List String := ["True", "False"]

/-- `dim_reduc.genes_for_pca` from `config/config.yaml`. -/
def cfg_genes_for_pca : List String :=
  ["all", "globally_highly_variable", "highly_variable_per_sample"]

/-- `dim_reduc.cc_method` from `config/config.yaml`. -/
def cfg_cc_method : List String :=
  ["None", "regress_out", "cc_genes_out", "cc_difference_regressed_out"]

/-- `dim_reduc.pca_n_components` from `config/config.yaml`. -/
def cfg_pca_n_components : List String := ["50"]

/-- `dim_reduc.umap_n_neighbors` from `config/config.yaml`. -/
def cfg_umap_n_neighbors : List String := ["30"]

/-- The Snakefile's dataset name: `subset` when `config.subset.use` is set,
`merged` otherwise. -/
def subsetFilename (use_subset : Bool) : String :=
  if use_subset then "subset" else "merged"

/-! ## Snakefile: sample resolution

```
if config['data']['sample_sheet_path']:
  samples = pd.read_csv(...)
elif config['samples_in_directory']:
  samples = read_sample(...)
else:
  print('no samples detected')
wc = samples.index
```
When neither branch binds `samples`, the message `no samples detected` is
printed and the access `samples.index` fails (unbound name) before any rule
runs; we model `samples` as an `Option` and the final access as `Except`.
-/

/-- The configuration fields consulted by the Snakefile's sample resolution. -/
structure PipelineConfig where
  sample_sheet_path : String
  samples_in_directory : Bool

/-- Python truthiness of a string: nonempty. -/
def pyTruthy (s : String) : Bool := s ≠ ""

/-- Which of the resolution paths the Snakefile's `if/elif/else` takes. -/
inductive ResolutionBranch
  | sheetBased
  | directoryScan
  | noSamples
deriving DecidableEq, Repr

/-- The branch taken by the Snakefile's sample-resolution conditional. -/
def resolutionBranch (c : PipelineConfig) : ResolutionBranch :=
  if pyTruthy c.sample_sheet_path then ResolutionBranch.sheetBased
  else if c.samples_in_directory then ResolutionBranch.directoryScan
  else ResolutionBranch.noSamples

/-- The `samples` binding after the conditional: `none` when no branch
assigned it (the `else` arm only prints). `sheetSamples` abstracts
`pd.read_csv` on the sheet path, `dirSamples` abstracts `read_sample`. -/
def loadedSamples (c : PipelineConfig) (sheetSamples : String → List String)
    (dirSamples : List String) : Option (List String) :=
  if pyTruthy c.sample_sheet_path then some (sheetSamples c.sample_sheet_path)
  else if c.samples_in_directory then some dirSamples
  else none

/-- `wc = samples.index`: succeeds with the sample identifiers, or fails with
the surfaced `no samples detected` condition when `samples` was never bound. -/
def sampleWildcards (c : PipelineConfig) (sheetSamples : String → List String)
    (dirSamples : List String) : Except String (List String) :=
  match loadedSamples c sheetSamples dirSamples with
  | some s => Except.ok s
  | none => Except.error "no samples detected"

/-! ## merged_dim_reduc_diff_params.ipynb: gene selection and neighbors call

The gene-selection cell reads
```
if "globally_highly_variable":
    sc.pp.highly_variable_genes(adata)
elif genes_for_pca == "highly_variable_per_sample":
    sc.pp.highly_variable_genes(adata, batch_key = "sample")
```
and the embedding cell reads
```
sc.pp.neighbors(adata, n_pcs = umap_n_neighbors)
```
-/

/-- The highly-variable-gene computation a run of the notebook performs. -/
inductive HvgComputation
  | globalHvg
  | perSampleHvg (batch_key : String)
  | skipped
deriving DecidableEq, Repr

/-- The gene-selection branch of the notebook: the first condition is the
string literal `"globally_highly_variable"` itself (Python truthiness),
not a comparison against `genes_for_pca`. -/
def hvgStep (genes_for_pca : String) : HvgComputation :=
  if pyTruthy "globally_highly_variable" then HvgComputation.globalHvg
  else if genes_for_pca = "highly_variable_per_sample" then
    HvgComputation.perSampleHvg "sample"
  else HvgComputation.skipped

/-- Arguments of a `sc.pp.neighbors` call. -/
structure NeighborsArgs where
  n_neighbors : Nat
  n_pcs : Option Nat
deriving DecidableEq, Repr

/-- Scanpy's default `n_neighbors` (used when the call names no
`n_neighbors` argument). -/
def scanpyDefault_n_neighbors : Nat := 15

/-- The notebook's neighbor-graph call: `umap_n_neighbors` is bound to
`n_pcs`, and `n_neighbors` is left at the library default. -/
def neighborsCall (umap_n_neighbors : Nat) : NeighborsArgs :=
  { n_neighbors := scanpyDefault_n_neighbors, n_pcs := some umap_n_neighbors }

/-! ## Sample sheet parsing

The Snakefile parses the sheet with
`pd.read_csv(config['data']['sample_sheet_path'], index_col = 'sample_name', sep = '\t')`:
tab-separated rows, first row a header naming the columns, and the
`sample_name` column becomes the index (the wildcard set `wc`).
-/

/-- Split a character list at every occurrence of `sep` (the separator is
consumed; adjacent separators give empty fields). -/
def splitOnChar (sep : Char) : List Char → List (List Char)
  | [] => [[]]
  | c :: rest =>
    if c = sep then [] :: splitOnChar sep rest
    else
      match splitOnChar sep rest with
      | [] => [[c]]
      | f :: fs => (c :: f) :: fs

/-- The cell grid of a TSV document: newline-separated lines (blank lines
dropped, as `pd.read_csv` does), each split at tabs. -/
def tsvCells (content : String) : List (List (List Char)) :=
  ((splitOnChar '\n' content.data).filter (fun l => l ≠ [])).map (splitOnChar '\t')

/-- The index column of the sheet: locate `sample_name` in the header row and
read that field of every data row, in row order.  `none` when the document is
empty or lacks a `sample_name` column (a `read_csv` error). -/
def sheetIndexCol (content : String) : Option (List String) :=
  match tsvCells content with
  | [] => none
  | header :: rows =>
    match List.indexOf? "sample_name".data header with
    | none => none
    | some i => some (rows.map fun r => String.mk (r.getD i []))

/-- The two-row sheet of the C5 scenario. -/
def exampleSheet : String :=
  "sample_name\tpath\nA\tpath_A\nB\tpath_B\n"

/-! ## Scheduler skip policy and the rule-all task set

Modelled from the spec: Snakemake's scheduler and the rules files
`rules/preprocessing.smk` / `rules/analyse_merged_ds.smk` are not part of the
repository snapshot; the skip policy below follows the spec's words (a task
already having all declared outputs present and newer than its inputs is
treated as already satisfied and is not re-executed), and the task set
follows the targets requested by `rule all` in the Snakefile.
-/

/-- A file-producing task node of the rule graph. -/
structure TaskNode where
  inputs : List String
  outputs : List String
deriving DecidableEq, Repr

/-- Modelled from the spec: whether one output is present and strictly newer
than one present input, under the file-modification-time map `mtime`
(`none` means the file does not exist). -/
def outputNewer (mtime : String → Option Nat) (i o : String) : Bool :=
  match mtime o, mtime i with
  | some mo, some mi => mi < mo
  | _, _ => false

/-- Modelled from the spec: the skip policy.  A task is re-executed when some
declared output is missing or not newer than some input; otherwise it is
treated as already satisfied. -/
def needsRun (mtime : String → Option Nat) (t : TaskNode) : Bool :=
  t.outputs.any fun o =>
    (mtime o).isNone || t.inputs.any fun i => !(outputNewer mtime i o)

/-- The tasks an invocation schedules for execution. -/
def tasksToRun (mtime : String → Option Nat) (ts : List TaskNode) : List TaskNode :=
  ts.filter (needsRun mtime)

/-- The preprocessing artifact requested by `rule all`. -/
def subsetArtifact : String := "results/preprocessing/subset.h5ad"

/-- Modelled from the spec: the task producing the preprocessing subset
artifact, from the per-sample preprocessing artifacts. -/
def preprocessingTask (sampleArtifacts : List String) : TaskNode :=
  { inputs := sampleArtifacts, outputs := [subsetArtifact] }

/-- Modelled from the spec: one dimensionality-reduction task per parameter
grid point, consuming the subset artifact and producing the tuple's `.done`
checkpoint file. -/
def dimReducTask (filename : String) (t : GridPoint) : TaskNode :=
  { inputs := [subsetArtifact], outputs := [pathOf filename t] }

/-- The full task set behind the `rule all` targets: the preprocessing subset
task plus one dimensionality-reduction task per configured grid point. -/
def pipelineTasks (sampleArtifacts : List String) : List TaskNode :=
  preprocessingTask sampleArtifacts ::
    (gridPoints cfg_layer_to_use cfg_scale_data cfg_genes_for_pca
      cfg_cc_method cfg_pca_n_components cfg_umap_n_neighbors).map
      (dimReducTask "subset")

/-! ## scarches.ipynb: feature augmentation

```
missing_genes = [gene_id for gene_id in reference_model_features.index
                 if gene_id not in adata_to_map.var.index]
missing_gene_adata = sc.AnnData(
    X=csr_matrix(np.zeros(shape=(adata.n_obs, len(missing_genes))), ...),
    var=reference_model_features.loc[missing_genes, :])
missing_gene_adata.layers["counts"] = missing_gene_adata.X
adata_to_map_augmented = sc.concat([adata_to_map, missing_gene_adata],
    axis=1, join="outer", index_unique=None, merge="unique")
adata_to_map_augmented = adata_to_map_augmented[:, reference_model_features.index].copy()
```
(`adata_to_map = adata.copy()`, so both share the observation set.)
-/

/-- A persisted dataset (AnnData): observation count, feature (var) index,
and the primary matrix `X` plus the `counts` layer, stored column-wise with
one column per feature. -/
structure AnnDataM where
  nObs : Nat
  vars : List String
  x : List (List Int)
  counts : List (List Int)
deriving DecidableEq, Repr

/-- `missing_genes`: the reference features absent from the query's var
index, in reference order. -/
def missing_genes (referenceFeatures : List String) (q : AnnDataM) : List String :=
  referenceFeatures.filter fun g => ¬ g ∈ q.vars

/-- `missing_gene_adata`: an all-zero dataset over the missing genes and the
query's observations; its `counts` layer is set to the same zero matrix. -/
def missing_gene_adata (referenceFeatures : List String) (q : AnnDataM) : AnnDataM :=
  { nObs := q.nObs
    vars := missing_genes referenceFeatures q
    x := (missing_genes referenceFeatures q).map fun _ => List.replicate q.nObs 0
    counts := (missing_genes referenceFeatures q).map fun _ => List.replicate q.nObs 0 }

/-- `sc.concat(..., axis=1, join="outer")` of two datasets over the same
observations: feature-wise concatenation of the var index, the matrix and
the layer. -/
def concatVars (a b : AnnDataM) : AnnDataM :=
  { nObs := a.nObs
    vars := a.vars ++ b.vars
    x := a.x ++ b.x
    counts := a.counts ++ b.counts }

/-- The matrix column aligned with the (first occurrence of the) named
feature in a var index. -/
def getCol (vars : List String) (cols : List (List Int)) (g : String) :
    Option (List Int) :=
  (vars.zip cols).lookup g

/-- `adata[:, features].copy()`: subset to the named features, reordered as
listed. -/
def subsetReorder (a : AnnDataM) (features : List String) : AnnDataM :=
  { nObs := a.nObs
    vars := features
    x := features.map fun g => (getCol a.vars a.x g).getD []
    counts := features.map fun g => (getCol a.vars a.counts g).getD [] }

/-- The feature-augmentation step of the annotation executor: build the
zero dataset over the missing genes, concatenate feature-wise, then subset
and reorder to the reference feature list. -/
def augmentFeatures (referenceFeatures : List String) (q : AnnDataM) : AnnDataM :=
  subsetReorder (concatVars q (missing_gene_adata referenceFeatures q))
    referenceFeatures

/-! ## Notebook executor stages: artifact reads and writes

Each stage notebook binds `input_file`, loads the artifact with
`sc.read_h5ad(input_file)`, and persists the updated artifact back:
- dimensionality reduction and clustering: `adata.write_h5ad(input_file)`;
- normalization:
```
random_string = np.random.bytes(10).hex()
adata.write_h5ad(input_file + random_string + ".tmp.h5ad")
os.rename(input_file + random_string + ".tmp.h5ad", input_file)
```
-/

/-- A filesystem operation a stage performs on artifacts: a (non-atomic)
file write of the updated artifact, or an atomic rename. -/
inductive FsOp
  | write (path : String)
  | rename (src dst : String)
deriving DecidableEq, Repr

/-- The paths at which operations materialize a file (a rename materializes
its destination). -/
def writtenPaths : List FsOp → List String
  | [] => []
  | FsOp.write p :: rest => p :: writtenPaths rest
  | FsOp.rename _ d :: rest => d :: writtenPaths rest

/-- The artifact paths a stage reads: each stage reads exactly its
`input_file`. -/
def stageReads (input_file : String) : List String := [input_file]

/-- The dimensionality-reduction stage's artifact operations. -/
def dimReducStageOps (input_file : String) : List FsOp :=
  [FsOp.write input_file]

/-- The clustering stage's artifact operations. -/
def clusteringStageOps (input_file : String) : List FsOp :=
  [FsOp.write input_file]

/-- The normalization stage's temporary path:
`input_file + random_string + ".tmp.h5ad"`. -/
def tmpPath (input_file random_string : String) : String :=
  input_file ++ random_string ++ ".tmp.h5ad"

/-- The normalization stage's artifact operations: write the temporary file,
then rename it over the input path. -/
def normalizationStageOps (input_file random_string : String) : List FsOp :=
  [FsOp.write (tmpPath input_file random_string),
   FsOp.rename (tmpPath input_file random_string) input_file]

/-- Observable content of a file while a stage runs: the artifact present
before the stage, the updated artifact, or a torn (partially written) file. -/
inductive FileContent
  | old
  | new
  | torn
deriving DecidableEq, Repr

/-- A filesystem state: file content by path (`none` = absent). -/
def FsState : Type := String → Option FileContent

/-- Completed write of content `c` at path `p`. -/
def applyWrite (fs : FsState) (p : String) (c : FileContent) : FsState :=
  fun q => if q = p then some c else fs q

/-- Atomic rename of `src` onto `dst`. -/
def applyRename (fs : FsState) (src dst : String) : FsState :=
  fun q => if q = dst then fs src else if q = src then none else fs q

/-- Every filesystem state visited while executing the operations: a write
first exposes a torn file at its own path, then the completed artifact;
a rename is atomic. -/
def statesDuring (fs : FsState) : List FsOp → List FsState
  | [] => []
  | FsOp.write p :: rest =>
      applyWrite fs p FileContent.torn :: applyWrite fs p FileContent.new ::
        statesDuring (applyWrite fs p FileContent.new) rest
  | FsOp.rename s d :: rest =>
      applyRename fs s d :: statesDuring (applyRename fs s d) rest

/-- The filesystem state after all operations complete. -/
def finalState (fs : FsState) : List FsOp → FsState
  | [] => fs
  | FsOp.write p :: rest => finalState (applyWrite fs p FileContent.new) rest
  | FsOp.rename s d :: rest => finalState (applyRename fs s d) rest

/-! ## Merge notebook: treatment and week derived from sample paths

```
sample_ids = [match.group() for path in sample_paths
              if (match := re.search("CE[a-zA-Z0-9_]*", path))]
sample_ids = [re.sub("CE_SC_", "", name) for name in sample_ids]
sample_ids = [re.sub("5FU_", "", name) for name in sample_ids]
sample_treatments = [name.split("_")[0] for name in sample_ids]
sample_weeks = [name.split("_")[1] for name in sample_ids]
sample_treatments = ["Control" if treatment == "C" else treatment
                     for treatment in sample_treatments]
samples = dict(zip(sample_ids, zip(sample_paths, sample_treatments, sample_weeks)))
for sample_id, (sample_path, treatment, week) in samples.items():
    sample_adata = sc.read_h5ad(sample_path)
    sample_adata.obs['treatment'] = treatment
    sample_adata.obs['week'] = week
    adatas[sample_id] = sample_adata
adata = ad.concat(adatas, label="sample")
```
-/

/-- A word character of the pattern `CE[a-zA-Z0-9_]*`. -/
def wordChar (c : Char) : Bool := c.isAlphanum || c = '_'

/-- `re.search("CE[a-zA-Z0-9_]*", path)`: the leftmost occurrence of `CE`,
extended greedily over word characters. -/
def searchCE : List Char → Option (List Char)
  | [] => none
  | c :: rest =>
    if c = 'C' then
      match rest with
      | 'E' :: tail => some ('C' :: 'E' :: tail.takeWhile wordChar)
      | _ => searchCE rest
    else searchCE rest

/-- `re.sub("CE_SC_", "", name)`: remove every non-overlapping occurrence,
scanning left to right and resuming after each removed occurrence. -/
def removeCESC : List Char → List Char
  | 'C' :: 'E' :: '_' :: 'S' :: 'C' :: '_' :: rest => removeCESC rest
  | c :: rest => c :: removeCESC rest
  | [] => []

/-- `re.sub("5FU_", "", name)`: remove every non-overlapping occurrence,
scanning left to right and resuming after each removed occurrence. -/
def remove5FU : List Char → List Char
  | '5' :: 'F' :: 'U' :: '_' :: rest => remove5FU rest
  | c :: rest => c :: remove5FU rest
  | [] => []

/-- The two substitutions applied in source order: every `CE_SC_`, then
every `5FU_`. -/
def cleanId (s : List Char) : List Char :=
  remove5FU (removeCESC s)

/-- The cleaned identifiers of the matching sample paths (paths without a
match are dropped by the comprehension's filter). -/
def sample_ids (sample_paths : List String) : List (List Char) :=
  (sample_paths.filterMap fun p => searchCE p.data).map cleanId

/-- `name.split("_")[0]`, then the `C` → `Control` renaming applied to the
treatment list. -/
def treatmentOfId (n : List Char) : String :=
  let t := String.mk ((splitOnChar '_' n).getD 0 [])
  if t = "C" then "Control" else t

/-- `name.split("_")[1]`; `none` models the IndexError raised when the
identifier has no second underscore token. -/
def weekOfId (n : List Char) : Option String :=
  ((splitOnChar '_' n).get? 1).map fun w => String.mk w

/-- `sample_treatments` of the source. -/
def sample_treatments (sample_paths : List String) : List String :=
  (sample_ids sample_paths).map treatmentOfId

/-- `sample_weeks` of the source. -/
def sample_weeks (sample_paths : List String) : List (Option String) :=
  (sample_ids sample_paths).map weekOfId

/-- Python dict assignment on an insertion-ordered association list:
overwrite the existing key in place, or append. -/
def dictInsert {α β : Type} [DecidableEq α] :
    List (α × β) → α → β → List (α × β)
  | [], k, v => [(k, v)]
  | (k', v') :: rest, k, v =>
    if k' = k then (k', v) :: rest else (k', v') :: dictInsert rest k v

/-- `dict(pairs)`: insertion order preserved, last value per key wins. -/
def dictOf {α β : Type} [DecidableEq α] (l : List (α × β)) : List (α × β) :=
  l.foldl (fun d kv => dictInsert d kv.1 kv.2) []

/-- The `samples` dictionary: id ↦ (path, treatment, week). -/
def samplesDict (sample_paths : List String) :
    List (List Char × String × String × Option String) :=
  dictOf ((sample_ids sample_paths).zip
    (sample_paths.zip
      ((sample_treatments sample_paths).zip (sample_weeks sample_paths))))

/-- The per-cell annotation rows after the loop and `ad.concat`: every cell
of a sample carries the sample's label, treatment and week, assigned once in
the loop body and only copied afterwards (`nCells` gives each sample file's
cell count). -/
def mergedObs (sample_paths : List String) (nCells : String → Nat) :
    List (String × String × Option String) :=
  (samplesDict sample_paths).flatMap fun it =>
    List.replicate (nCells it.2.1) (String.mk it.1, it.2.2.1, it.2.2.2)

/-- The treatment the code derives for one path. -/
def codeTreatmentOfPath (p : String) : Option String :=
  (searchCE p.data).map fun raw => treatmentOfId (cleanId raw)

/-- The week the code derives for one path. -/
def codeWeekOfPath (p : String) : Option (Option String) :=
  (searchCE p.data).map fun raw => weekOfId (cleanId raw)

/-- Modelled from the spec's words, for comparison with the code: strip a
leading occurrence of the pattern, leaving other occurrences in place. -/
def stripLeading (pat s : List Char) : List Char :=
  if pat.isPrefixOf s then s.drop pat.length else s

/-- The claim's derivation of the identifier: strip the `CE_SC_` and `5FU_`
prefixes. -/
def claimId (s : List Char) : List Char :=
  stripLeading "5FU_".data (stripLeading "CE_SC_".data s)

/-- The treatment under the claim's prefix-strip reading. -/
def claimTreatmentOfPath (p : String) : Option String :=
  (searchCE p.data).map fun raw => treatmentOfId (claimId raw)

/-- The week under the claim's prefix-strip reading. -/
def claimWeekOfPath (p : String) : Option (Option String) :=
  (searchCE p.data).map fun raw => weekOfId (claimId raw)

/-! ## Theorems -/

/-- C1: over the configured `dim_reduc` domains the expander produces exactly
one task instance per parameter tuple (the grid has no duplicate tuples and
`expand` maps each to one checkpoint path), the checkpoint paths of distinct
tuples are pairwise distinct, and in the two-by-two scenario
(`cc_method = ["None","regress_out"]`, `pca_n_components = [50,100]`, all
other dimensions single-valued) exactly 4 distinct task instances arise. -/
theorem expand_grid_unique_paths :
    (expandCheckpoints "subset" cfg_layer_to_use cfg_scale_data cfg_genes_for_pca
        cfg_cc_method cfg_pca_n_components cfg_umap_n_neighbors).length
      = cfg_layer_to_use.length * cfg_scale_data.length * cfg_genes_for_pca.length *
        cfg_cc_method.length * cfg_pca_n_components.length * cfg_umap_n_neighbors.length
    ∧ (gridPoints cfg_layer_to_use cfg_scale_data cfg_genes_for_pca
        cfg_cc_method cfg_pca_n_components cfg_umap_n_neighbors).Nodup
    ∧ (expandCheckpoints "subset" cfg_layer_to_use cfg_scale_data cfg_genes_for_pca
        cfg_cc_method cfg_pca_n_components cfg_umap_n_neighbors).Nodup
    ∧ (expandCheckpoints "subset" cfg_layer_to_use ["True"] ["all"]
        ["None", "regress_out"] ["50", "100"] cfg_umap_n_neighbors).length = 4
    ∧ (expandCheckpoints "subset" cfg_layer_to_use ["True"] ["all"]
        ["None", "regress_out"] ["50", "100"] cfg_umap_n_neighbors).Nodup := by
  refine ⟨by decide, by decide, by decide, by decide, by decide⟩

/-- C2: whenever at least one sample source is configured, exactly one of the
two resolution paths executes (sheet-based when the sheet path is nonempty,
directory-scan otherwise) and resolution succeeds; when both are disabled the
pipeline surfaces the `no samples detected` condition as a failure of the
resolution step itself, before any task can run, instead of yielding an empty
sample set. -/
theorem sample_resolution_exclusive_or_fails (c : PipelineConfig)
    (sheetSamples : String → List String) (dirSamples : List String) :
    (pyTruthy c.sample_sheet_path = true →
      resolutionBranch c = ResolutionBranch.sheetBased ∧
      sampleWildcards c sheetSamples dirSamples =
        Except.ok (sheetSamples c.sample_sheet_path))
    ∧ (pyTruthy c.sample_sheet_path = false → c.samples_in_directory = true →
      resolutionBranch c = ResolutionBranch.directoryScan ∧
      sampleWildcards c sheetSamples dirSamples = Except.ok dirSamples)
    ∧ ResolutionBranch.sheetBased ≠ ResolutionBranch.directoryScan
    ∧ (pyTruthy c.sample_sheet_path = false → c.samples_in_directory = false →
      resolutionBranch c = ResolutionBranch.noSamples ∧
      sampleWildcards c sheetSamples dirSamples =
        Except.error "no samples detected") := by
  unfold resolutionBranch sampleWildcards loadedSamples
  refine ⟨fun h => ?_, fun h h2 => ?_, by decide, fun h h2 => ?_⟩
  · simp [h]
  · simp [h, h2]
  · simp [h, h2]

/-- Witness for C2 at concrete configurations: the configured sheet path of
`config.yaml` takes the sheet branch, and the all-disabled configuration
fails with `no samples detected`. -/
theorem sample_resolution_witness :
    (pyTruthy "resources/sample_sheet.tsv" = true ∧
      (resolutionBranch ⟨"resources/sample_sheet.tsv", false⟩ = ResolutionBranch.sheetBased ∧
        sampleWildcards ⟨"resources/sample_sheet.tsv", false⟩ (fun _ => ["A", "B"]) [] =
          Except.ok ["A", "B"]))
    ∧ (pyTruthy "" = false ∧
      (resolutionBranch ⟨"", false⟩ = ResolutionBranch.noSamples ∧
        sampleWildcards ⟨"", false⟩ (fun _ => ["A", "B"]) [] =
          Except.error "no samples detected")) :=
  ⟨⟨by decide,
    (sample_resolution_exclusive_or_fails ⟨"resources/sample_sheet.tsv", false⟩
      (fun _ => ["A", "B"]) []).1 (by decide)⟩,
   ⟨by decide,
    (sample_resolution_exclusive_or_fails ⟨"", false⟩
      (fun _ => ["A", "B"]) []).2.2.2 (by decide) (by decide)⟩⟩

/-- C8: the gene-selection branch tests the constant truthy literal
`"globally_highly_variable"`, so the global highly-variable-gene computation
runs for every value of `genes_for_pca`, the per-sample (`batch_key`) branch
is unreachable, and any two runs differing only in `genes_for_pca` perform
the same highly-variable computation. -/
theorem hvg_branch_ignores_genes_for_pca :
    (∀ g : String, hvgStep g = HvgComputation.globalHvg)
    ∧ (∀ g₁ g₂ : String, hvgStep g₁ = hvgStep g₂)
    ∧ (∀ g b : String, hvgStep g ≠ HvgComputation.perSampleHvg b) := by
  refine ⟨fun g => rfl, fun g₁ g₂ => rfl, fun g b => by simp [hvgStep, pyTruthy]⟩

/-- C9: the notebook's neighbor-graph call binds `umap_n_neighbors` to the
`n_pcs` argument while `n_neighbors` stays at the library default for every
grid point; two grid points differing only in `umap_n_neighbors` hence differ
in `n_pcs`, never in neighbor count. -/
theorem umap_n_neighbors_feeds_n_pcs :
    (∀ k : Nat, (neighborsCall k).n_pcs = some k)
    ∧ (∀ k : Nat, (neighborsCall k).n_neighbors = scanpyDefault_n_neighbors)
    ∧ (∀ k₁ k₂ : Nat, (neighborsCall k₁).n_neighbors = (neighborsCall k₂).n_neighbors)
    ∧ (∀ k₁ k₂ : Nat, k₁ ≠ k₂ → (neighborsCall k₁).n_pcs ≠ (neighborsCall k₂).n_pcs) := by
  refine ⟨fun k => rfl, fun k => rfl, fun k₁ k₂ => rfl, fun k₁ k₂ h => ?_⟩
  simp [neighborsCall, h]

/-- Witness for C9 at concrete grid points 30 and 50. -/
theorem umap_n_neighbors_feeds_n_pcs_witness :
    (30 : Nat) ≠ 50 ∧ (neighborsCall 30).n_pcs ≠ (neighborsCall 50).n_pcs :=
  ⟨by decide, umap_n_neighbors_feeds_n_pcs.2.2.2 30 50 (by decide)⟩

/-- C5: on the sheet with rows (`A`, path_A) and (`B`, path_B) under the
required `sample_name`/`path` header, the resolver's parse yields the
identifiers `A`, `B` in sheet order, and that list is exactly the wildcard
set handed to the per-sample rules. -/
theorem sheet_two_rows_yields_A_B :
    sheetIndexCol exampleSheet = some ["A", "B"]
    ∧ sampleWildcards ⟨"resources/sample_sheet.tsv", false⟩
        (fun _ => (sheetIndexCol exampleSheet).getD []) []
      = Except.ok ["A", "B"] := by
  refine ⟨by decide, rfl⟩

/-- C4: re-invoking the top-level target is idempotent when complete: if
every output declared by a pipeline task exists and every one of them is
strictly newer than every input of its task, the scheduler schedules zero
task executions. -/
theorem rerun_when_complete_schedules_nothing
    (mtime : String → Option Nat) (sampleArtifacts : List String)
    (h : ∀ t ∈ pipelineTasks sampleArtifacts,
      (∀ o ∈ t.outputs, (mtime o).isSome = true)
      ∧ (∀ o ∈ t.outputs, ∀ i ∈ t.inputs, outputNewer mtime i o = true)) :
    tasksToRun mtime (pipelineTasks sampleArtifacts) = [] := by
  unfold tasksToRun
  rw [List.filter_eq_nil_iff]
  intro t ht
  obtain ⟨h1, h2⟩ := h t ht
  have hfalse : needsRun mtime t = false := by
    unfold needsRun
    rw [List.any_eq_false]
    intro o ho hcontra
    have h1o := h1 o ho
    cases hmo : mtime o with
    | none => rw [hmo] at h1o; simp at h1o
    | some v =>
      rw [hmo] at hcontra
      simp only [Option.isNone_some, Bool.false_or] at hcontra
      rcases List.any_eq_true.mp hcontra with ⟨i, hi, hneg⟩
      rw [h2 o ho i hi] at hneg
      simp at hneg
  simp [hfalse]

/-- Witness for C4: a concrete complete state of storage (subset artifact
newer than the sample artifact, every checkpoint newer than the subset
artifact) schedules zero tasks. -/
theorem rerun_when_complete_witness :
    (∀ t ∈ pipelineTasks ["results/preprocessing/A/annotation.h5ad"],
      (∀ o ∈ t.outputs,
        ((fun f => if f = "results/preprocessing/A/annotation.h5ad" then some 0
          else if f = subsetArtifact then some 1 else some (2 : Nat)) o).isSome = true)
      ∧ (∀ o ∈ t.outputs, ∀ i ∈ t.inputs,
        outputNewer (fun f => if f = "results/preprocessing/A/annotation.h5ad" then some 0
          else if f = subsetArtifact then some 1 else some 2) i o = true))
    ∧ tasksToRun (fun f => if f = "results/preprocessing/A/annotation.h5ad" then some 0
        else if f = subsetArtifact then some 1 else some 2)
        (pipelineTasks ["results/preprocessing/A/annotation.h5ad"]) = [] :=
  ⟨by decide,
   rerun_when_complete_schedules_nothing
     (fun f => if f = "results/preprocessing/A/annotation.h5ad" then some 0
       else if f = subsetArtifact then some 1 else some 2)
     ["results/preprocessing/A/annotation.h5ad"] (by decide)⟩

/-- A key absent from the key list is not found in the zipped association. -/
theorem lookup_zip_of_not_mem {β : Type} (g : String) (vars : List String)
    (cols : List β) (h : g ∉ vars) : (vars.zip cols).lookup g = none := by
  induction vars generalizing cols with
  | nil => rfl
  | cons v vs ih =>
    cases cols with
    | nil => rfl
    | cons c cs =>
      have hgv : (g == v) = false := by
        refine beq_eq_false_iff_ne.mpr fun he => h ?_
        simp [he]
      simp only [List.zip_cons_cons, List.lookup, hgv]
      exact ih cs fun hm => h (List.mem_cons_of_mem v hm)

/-- Lookup skips a first block that misses the key. -/
theorem lookup_append_of_none {β : Type} (g : String) (l₁ l₂ : List (String × β))
    (h : l₁.lookup g = none) : (l₁ ++ l₂).lookup g = l₂.lookup g := by
  induction l₁ with
  | nil => rfl
  | cons p rest ih =>
    cases p with
    | mk k v =>
      simp only [List.cons_append, List.lookup] at h ⊢
      revert h
      cases hgk : g == k with
      | true => intro h; exact Option.noConfusion h
      | false => intro h; exact ih h

/-- Lookup found in the first block survives appending. -/
theorem lookup_append_of_some {β : Type} (g : String) (l₁ l₂ : List (String × β))
    (v : β) (h : l₁.lookup g = some v) : (l₁ ++ l₂).lookup g = some v := by
  induction l₁ with
  | nil => simp at h
  | cons p rest ih =>
    cases p with
    | mk k w =>
      simp only [List.cons_append, List.lookup] at h ⊢
      revert h
      cases hgk : g == k with
      | true => intro h; exact h
      | false => intro h; exact ih h

/-- Looking a member key up in a zip against a constant-valued map gives that
constant. -/
theorem lookup_zip_self_map {β : Type} (g : String) (m : List String) (z : β)
    (h : g ∈ m) : (m.zip (m.map fun _ => z)).lookup g = some z := by
  induction m with
  | nil => cases h
  | cons v vs ih =>
    simp only [List.map_cons, List.zip_cons_cons, List.lookup]
    cases hgv : g == v with
    | true => rfl
    | false =>
      refine ih ?_
      rcases List.mem_cons.mp h with h1 | h1
      · exact absurd h1 (by simpa using hgv)
      · exact h1

/-- A member key of an aligned zip is found. -/
theorem lookup_zip_isSome {β : Type} (g : String) (vars : List String)
    (cols : List β) (hlen : cols.length = vars.length) (h : g ∈ vars) :
    ∃ v, (vars.zip cols).lookup g = some v := by
  induction vars generalizing cols with
  | nil => cases h
  | cons v vs ih =>
    cases cols with
    | nil => simp at hlen
    | cons c cs =>
      simp only [List.zip_cons_cons, List.lookup]
      cases hgv : g == v with
      | true => exact ⟨c, rfl⟩
      | false =>
        refine ih cs (by simpa using hlen) ?_
        rcases List.mem_cons.mp h with h1 | h1
        · exact absurd h1 (by simpa using hgv)
        · exact h1

/-- `getD` through `map`, below the length. -/
theorem getD_map_lt {α β : Type} (l : List α) (f : α → β) (i : Nat)
    (hi : i < l.length) (d : β) (d' : α) :
    (l.map f).getD i d = f (l.getD i d') := by
  rw [List.getD_eq_getElem l d' hi, List.getD_eq_getElem _ d (by simpa using hi),
    List.getElem_map]

/-- Membership in `missing_genes`: in the reference and absent from the
query. -/
theorem mem_missing_iff (ref : List String) (q : AnnDataM) (g : String) :
    g ∈ missing_genes ref q ↔ g ∈ ref ∧ g ∉ q.vars := by
  simp [missing_genes, List.mem_filter]

/-- Column of the concatenated dataset at a missing gene: the zero column. -/
theorem getCol_append_missing (vars m : List String) (cols : List (List Int))
    (z : List Int) (g : String) (hlen : cols.length = vars.length)
    (hgm : g ∈ m) (hgv : g ∉ vars) :
    getCol (vars ++ m) (cols ++ m.map fun _ => z) g = some z := by
  unfold getCol
  rw [List.zip_append hlen.symm,
    lookup_append_of_none g _ _ (lookup_zip_of_not_mem g vars cols hgv)]
  exact lookup_zip_self_map g m z hgm

/-- Column of the concatenated dataset at a gene the query has: the query's
own column. -/
theorem getCol_append_present (vars m : List String) (cols zcols : List (List Int))
    (g : String) (hlen : cols.length = vars.length)
    (hgv : g ∈ vars) :
    getCol (vars ++ m) (cols ++ zcols) g = getCol vars cols g := by
  unfold getCol
  obtain ⟨v, hv⟩ := lookup_zip_isSome g vars cols hlen hgv
  rw [List.zip_append hlen.symm, lookup_append_of_some g _ _ v hv, hv]

/-- C3: for a reference feature list of size N and a query dataset with
aligned columns, the augmentation step yields a dataset whose var index is
exactly the reference list (N features, reference order); every missing
feature's column is the all-zero column in both the primary matrix and the
counts layer, and every feature the query has keeps the query's column. -/
theorem augment_missing_features_zero (ref : List String) (q : AnnDataM)
    (hx : q.x.length = q.vars.length) (hc : q.counts.length = q.vars.length) :
    (augmentFeatures ref q).vars = ref
    ∧ (augmentFeatures ref q).vars.length = ref.length
    ∧ (augmentFeatures ref q).x.length = ref.length
    ∧ (augmentFeatures ref q).counts.length = ref.length
    ∧ (∀ i, i < ref.length → ref.getD i "" ∈ missing_genes ref q →
        (augmentFeatures ref q).x.getD i [] = List.replicate q.nObs 0
        ∧ (augmentFeatures ref q).counts.getD i [] = List.replicate q.nObs 0)
    ∧ (∀ i, i < ref.length → ref.getD i "" ∉ missing_genes ref q →
        (augmentFeatures ref q).x.getD i []
            = (getCol q.vars q.x (ref.getD i "")).getD []
        ∧ (augmentFeatures ref q).counts.getD i []
            = (getCol q.vars q.counts (ref.getD i "")).getD []) := by
  refine ⟨rfl, by simp [augmentFeatures, subsetReorder],
    by simp [augmentFeatures, subsetReorder], by simp [augmentFeatures, subsetReorder],
    ?_, ?_⟩
  · intro i hi hmem
    have hnv : ref.getD i "" ∉ q.vars := ((mem_missing_iff ref q _).mp hmem).2
    constructor
    · show (List.map _ ref).getD i [] = _
      rw [getD_map_lt ref _ i hi [] ""]
      rw [show (concatVars q (missing_gene_adata ref q)).vars
            = q.vars ++ missing_genes ref q from rfl,
        show (concatVars q (missing_gene_adata ref q)).x
            = q.x ++ (missing_genes ref q).map fun _ => List.replicate q.nObs 0 from rfl]
      rw [getCol_append_missing q.vars (missing_genes ref q) q.x
        (List.replicate q.nObs 0) _ hx hmem hnv]
      rfl
    · show (List.map _ ref).getD i [] = _
      rw [getD_map_lt ref _ i hi [] ""]
      rw [show (concatVars q (missing_gene_adata ref q)).vars
            = q.vars ++ missing_genes ref q from rfl,
        show (concatVars q (missing_gene_adata ref q)).counts
            = q.counts ++ (missing_genes ref q).map fun _ => List.replicate q.nObs 0 from rfl]
      rw [getCol_append_missing q.vars (missing_genes ref q) q.counts
        (List.replicate q.nObs 0) _ hc hmem hnv]
      rfl
  · intro i hi hmem
    have hgr : ref.getD i "" ∈ ref := by
      rw [List.getD_eq_getElem ref "" hi]
      exact List.getElem_mem hi
    have hgv : ref.getD i "" ∈ q.vars := by
      by_contra hnv
      exact hmem ((mem_missing_iff ref q _).mpr ⟨hgr, hnv⟩)
    constructor
    · show (List.map _ ref).getD i [] = _
      rw [getD_map_lt ref _ i hi [] ""]
      rw [show (concatVars q (missing_gene_adata ref q)).vars
            = q.vars ++ missing_genes ref q from rfl,
        show (concatVars q (missing_gene_adata ref q)).x
            = q.x ++ (missing_genes ref q).map fun _ => List.replicate q.nObs 0 from rfl]
      rw [getCol_append_present q.vars (missing_genes ref q) q.x _ _ hx hgv]
    · show (List.map _ ref).getD i [] = _
      rw [getD_map_lt ref _ i hi [] ""]
      rw [show (concatVars q (missing_gene_adata ref q)).vars
            = q.vars ++ missing_genes ref q from rfl,
        show (concatVars q (missing_gene_adata ref q)).counts
            = q.counts ++ (missing_genes ref q).map fun _ => List.replicate q.nObs 0 from rfl]
      rw [getCol_append_present q.vars (missing_genes ref q) q.counts _ _ hc hgv]

/-- Witness for C3: reference ["g1","g2","g3"] against a query holding only
"g2" (plus an extra gene "g0"): three features in reference order, with the
missing "g1" zero-filled and the present "g2" keeping its column. -/
theorem augment_missing_features_zero_witness :
    ((⟨2, ["g2", "g0"], [[5, 6], [7, 8]], [[5, 6], [7, 8]]⟩ : AnnDataM).x.length
        = (⟨2, ["g2", "g0"], [[5, 6], [7, 8]], [[5, 6], [7, 8]]⟩ : AnnDataM).vars.length)
    ∧ (augmentFeatures ["g1", "g2", "g3"]
        ⟨2, ["g2", "g0"], [[5, 6], [7, 8]], [[5, 6], [7, 8]]⟩).vars = ["g1", "g2", "g3"]
    ∧ ((augmentFeatures ["g1", "g2", "g3"]
        ⟨2, ["g2", "g0"], [[5, 6], [7, 8]], [[5, 6], [7, 8]]⟩).x.getD 0 []
          = List.replicate 2 0
      ∧ (augmentFeatures ["g1", "g2", "g3"]
        ⟨2, ["g2", "g0"], [[5, 6], [7, 8]], [[5, 6], [7, 8]]⟩).counts.getD 0 []
          = List.replicate 2 0) :=
  ⟨by decide,
   (augment_missing_features_zero ["g1", "g2", "g3"]
      ⟨2, ["g2", "g0"], [[5, 6], [7, 8]], [[5, 6], [7, 8]]⟩ (by decide) (by decide)).1,
   (augment_missing_features_zero ["g1", "g2", "g3"]
      ⟨2, ["g2", "g0"], [[5, 6], [7, 8]], [[5, 6], [7, 8]]⟩ (by decide) (by decide)).2.2.2.2.1
      0 (by decide) (by decide)⟩

/-- The normalization temporary path differs from the input path. -/
theorem tmpPath_ne_input (input_file r : String) :
    tmpPath input_file r ≠ input_file := by
  intro hcontra
  have hl := congrArg String.length hcontra
  have h9 : (".tmp.h5ad" : String).length = 9 := rfl
  simp only [tmpPath, String.length_append, h9] at hl
  omega

/-- Distinct random strings give distinct temporary paths. -/
theorem tmpPath_inj (input_file r₁ r₂ : String)
    (h : tmpPath input_file r₁ = tmpPath input_file r₂) : r₁ = r₂ := by
  have hd := congrArg String.data h
  simp only [tmpPath, String.data_append, List.append_assoc] at hd
  exact String.ext (List.append_cancel_right (List.append_cancel_left hd))

/-- C6 counterexample: the normalization stage writes the temporary path
`input_file + random_string + ".tmp.h5ad"`, which differs from its input
path, so its set of written paths is not just the input path. -/
theorem stage_extra_write_counterexample :
    tmpPath "norm.h5ad" "00ff" ∈ writtenPaths (normalizationStageOps "norm.h5ad" "00ff")
    ∧ tmpPath "norm.h5ad" "00ff" ≠ "norm.h5ad"
    ∧ writtenPaths (normalizationStageOps "norm.h5ad" "00ff") ≠ ["norm.h5ad"] := by
  refine ⟨by decide, by decide, by decide⟩

/-- C6 amended: every stage reads exactly its declared input path; the
dimensionality-reduction and clustering stages write only that path; the
normalization stage also writes a temporary derived from the input path but
renames it onto the input path, so after any stage completes the input path
holds the updated artifact, the temporary is gone, and every other path is
untouched. -/
theorem stage_rewrites_artifact_in_place (input_file random_string : String)
    (fs : FsState) :
    stageReads input_file = [input_file]
    ∧ writtenPaths (dimReducStageOps input_file) = [input_file]
    ∧ writtenPaths (clusteringStageOps input_file) = [input_file]
    ∧ writtenPaths (normalizationStageOps input_file random_string)
        = [tmpPath input_file random_string, input_file]
    ∧ finalState fs (dimReducStageOps input_file) input_file
        = some FileContent.new
    ∧ finalState fs (clusteringStageOps input_file) input_file
        = some FileContent.new
    ∧ finalState fs (normalizationStageOps input_file random_string) input_file
        = some FileContent.new
    ∧ finalState fs (normalizationStageOps input_file random_string)
        (tmpPath input_file random_string) = none
    ∧ (∀ p, p ≠ input_file → p ≠ tmpPath input_file random_string →
        finalState fs (normalizationStageOps input_file random_string) p = fs p)
    ∧ (∀ p, p ≠ input_file →
        finalState fs (dimReducStageOps input_file) p = fs p) := by
  have htmp := tmpPath_ne_input input_file random_string
  refine ⟨rfl, rfl, rfl, rfl, ?_, ?_, ?_, ?_, ?_, ?_⟩
  · simp [dimReducStageOps, finalState, applyWrite]
  · simp [clusteringStageOps, finalState, applyWrite]
  · simp [normalizationStageOps, finalState, applyRename, applyWrite]
  · simp [normalizationStageOps, finalState, applyRename, applyWrite, htmp]
  · intro p hp1 hp2
    simp [normalizationStageOps, finalState, applyRename, applyWrite, hp1, hp2]
  · intro p hp1
    simp [dimReducStageOps, finalState, applyWrite, hp1]

/-- Witness for the amended C6 at a concrete input path, temporary string,
bystander path and filesystem. -/
theorem stage_rewrites_artifact_in_place_witness :
    ("other.h5ad" : String) ≠ "norm.h5ad"
    ∧ "other.h5ad" ≠ tmpPath "norm.h5ad" "00ff"
    ∧ finalState (fun _ => none) (normalizationStageOps "norm.h5ad" "00ff")
        "other.h5ad" = (fun _ => (none : Option FileContent)) "other.h5ad" :=
  ⟨by decide, by decide,
   (stage_rewrites_artifact_in_place "norm.h5ad" "00ff"
      (fun _ => none)).2.2.2.2.2.2.2.2.1 "other.h5ad" (by decide) (by decide)⟩

/-- C10: the normalization stage writes the updated artifact to
`input_file + random_string + ".tmp.h5ad"` and then renames it over the
input path; through every state visited, the artifact path holds either the
old or the new complete artifact and never a torn file; and distinct random
strings (as drawn by distinct concurrent invocations) give distinct
temporary paths. -/
theorem normalization_atomic_rewrite (input_file r₁ r₂ : String) (fs : FsState)
    (hold : fs input_file = some FileContent.old) (hne : r₁ ≠ r₂) :
    normalizationStageOps input_file r₁
      = [FsOp.write (input_file ++ r₁ ++ ".tmp.h5ad"),
         FsOp.rename (input_file ++ r₁ ++ ".tmp.h5ad") input_file]
    ∧ (∀ s ∈ fs :: statesDuring fs (normalizationStageOps input_file r₁),
        s input_file = some FileContent.old ∨ s input_file = some FileContent.new)
    ∧ tmpPath input_file r₁ ≠ tmpPath input_file r₂ := by
  have htmp := tmpPath_ne_input input_file r₁
  have hsym : input_file ≠ tmpPath input_file r₁ := Ne.symm htmp
  refine ⟨rfl, ?_, fun hcontra => hne (tmpPath_inj input_file r₁ r₂ hcontra)⟩
  intro s hs
  simp only [normalizationStageOps, statesDuring, List.mem_cons,
    List.not_mem_nil, or_false] at hs
  rcases hs with h | h | h | h
  · left; rw [h]; exact hold
  · left; rw [h]; simp [applyWrite, hsym, hold]
  · left; rw [h]; simp [applyWrite, hsym, hold]
  · right; rw [h]; simp [applyRename, applyWrite]

/-- Witness for C10 at a concrete path, two concrete random strings and a
concrete filesystem. -/
theorem normalization_atomic_rewrite_witness :
    ((fun q => if q = "n.h5ad" then some FileContent.old else none : FsState)
        "n.h5ad" = some FileContent.old)
    ∧ ("aa" : String) ≠ "bb"
    ∧ tmpPath "n.h5ad" "aa" ≠ tmpPath "n.h5ad" "bb" :=
  ⟨by decide, by decide,
   (normalization_atomic_rewrite "n.h5ad" "aa" "bb"
      (fun q => if q = "n.h5ad" then some FileContent.old else none)
      (by decide) (by decide)).2.2⟩

/-- When every path matches, the comprehension's filter keeps all paths. -/
theorem filterMap_searchCE_of_all (paths : List String)
    (hall : ∀ p ∈ paths, (searchCE p.data).isSome = true) :
    (paths.filterMap fun p => searchCE p.data)
      = paths.map fun p => (searchCE p.data).getD [] := by
  induction paths with
  | nil => rfl
  | cons p ps ih =>
    obtain ⟨v, hv⟩ :=
      Option.isSome_iff_exists.mp (hall p (List.mem_cons_self p ps))
    rw [List.filterMap_cons, hv, List.map_cons, hv,
      ih fun q hq => hall q (List.mem_cons_of_mem p hq)]
    rfl

/-- When every path matches, the cleaned identifier list is the
path-by-path derivation. -/
theorem sample_ids_eq_map (paths : List String)
    (hall : ∀ p ∈ paths, (searchCE p.data).isSome = true) :
    sample_ids paths = paths.map fun p => cleanId ((searchCE p.data).getD []) := by
  unfold sample_ids
  rw [filterMap_searchCE_of_all paths hall, List.map_map]
  rfl

/-- When every path matches, the zipped id/path/treatment/week rows pair
each path with exactly its own derived attributes. -/
theorem samples_zip_eq (paths : List String)
    (hall : ∀ p ∈ paths, (searchCE p.data).isSome = true) :
    ((sample_ids paths).zip
      (paths.zip ((sample_treatments paths).zip (sample_weeks paths))))
      = paths.map fun p =>
          (cleanId ((searchCE p.data).getD []), p,
           treatmentOfId (cleanId ((searchCE p.data).getD [])),
           weekOfId (cleanId ((searchCE p.data).getD []))) := by
  induction paths with
  | nil => rfl
  | cons p ps ih =>
    obtain ⟨v, hv⟩ :=
      Option.isSome_iff_exists.mp (hall p (List.mem_cons_self p ps))
    have hallps : ∀ q ∈ ps, (searchCE q.data).isSome = true :=
      fun q hq => hall q (List.mem_cons_of_mem p hq)
    have h1 : sample_ids (p :: ps) = cleanId v :: sample_ids ps := by
      unfold sample_ids
      rw [List.filterMap_cons, hv]
      rfl
    have h2 : sample_treatments (p :: ps)
        = treatmentOfId (cleanId v) :: sample_treatments ps := by
      unfold sample_treatments
      rw [h1]
      rfl
    have h3 : sample_weeks (p :: ps)
        = weekOfId (cleanId v) :: sample_weeks ps := by
      unfold sample_weeks
      rw [h1]
      rfl
    rw [h1, h2, h3]
    simp only [List.zip_cons_cons, List.map_cons, ih hallps, hv]
    rfl

/-- Inserting a fresh key appends it. -/
theorem dictInsert_of_not_mem {α β : Type} [DecidableEq α]
    (d : List (α × β)) (k : α) (v : β) (h : k ∉ d.map Prod.fst) :
    dictInsert d k v = d ++ [(k, v)] := by
  induction d with
  | nil => rfl
  | cons kv rest ih =>
    cases kv with
    | mk k' v' =>
      have hne : k' ≠ k := fun he => h (by simp [he])
      simp only [dictInsert, hne, if_false, List.cons_append, List.cons.injEq,
        true_and]
      exact ih fun hm => h (by simp [hm])

/-- Folding dict insertion over rows with globally fresh, pairwise distinct
keys appends them in order. -/
theorem dictOf_foldl_aux {α β : Type} [DecidableEq α] (l : List (α × β)) :
    ∀ d : List (α × β), (d.map Prod.fst ++ l.map Prod.fst).Nodup →
      l.foldl (fun d kv => dictInsert d kv.1 kv.2) d = d ++ l := by
  induction l with
  | nil => intro d _; simp
  | cons kv rest ih =>
    intro d h
    cases kv with
    | mk k v =>
      have hk : k ∉ d.map Prod.fst := by
        intro hm
        exact (List.nodup_append.mp h).2.2 hm (List.mem_cons_self k _)
      rw [List.foldl_cons]
      dsimp only
      rw [dictInsert_of_not_mem d k v hk,
        ih (d ++ [(k, v)]) (by simpa [List.map_append] using h)]
      simp

/-- A pair list with pairwise distinct keys is its own dict. -/
theorem dictOf_eq_self {α β : Type} [DecidableEq α] (l : List (α × β))
    (h : (l.map Prod.fst).Nodup) : dictOf l = l := by
  unfold dictOf
  rw [dictOf_foldl_aux l [] (by simpa using h)]
  simp

/-- C7 counterexample: on the matching identifier `CEXCE_SC_W_3` the code
removes the interior occurrence of `CE_SC_` (a global substitution), so it
derives treatment `CEXW` and week `3`, while the claim's prefix-strip
derivation leaves the identifier unchanged and yields treatment `CEXCE` and
week `SC`. -/
theorem treatment_prefix_strip_counterexample :
    codeTreatmentOfPath "results/preprocessing/CEXCE_SC_W_3/annotation.h5ad"
        = some "CEXW"
    ∧ claimTreatmentOfPath "results/preprocessing/CEXCE_SC_W_3/annotation.h5ad"
        = some "CEXCE"
    ∧ codeWeekOfPath "results/preprocessing/CEXCE_SC_W_3/annotation.h5ad"
        = some (some "3")
    ∧ claimWeekOfPath "results/preprocessing/CEXCE_SC_W_3/annotation.h5ad"
        = some (some "SC")
    ∧ ("CEXW" : String) ≠ "CEXCE"
    ∧ (some "3" : Option String) ≠ some "SC" := by
  refine ⟨by decide, by decide, by decide, by decide, by decide, by decide⟩

/-- C7 amended: when every sample path contains a `CE[a-zA-Z0-9_]*`
identifier and the cleaned identifiers are pairwise distinct, the merge step
attaches to every cell of each sample exactly the treatment and week derived
from that sample's path — the first and second underscore token of the
matched identifier after removing every occurrence of the substrings
`CE_SC_` and `5FU_` (with token `C` renamed to `Control`), assigned once and
only copied by the concatenation. -/
theorem merged_cells_carry_derived_attrs (paths : List String)
    (nCells : String → Nat)
    (hall : ∀ p ∈ paths, (searchCE p.data).isSome = true)
    (hnodup : (sample_ids paths).Nodup) :
    mergedObs paths nCells
      = paths.flatMap fun p =>
          List.replicate (nCells p)
            (String.mk (cleanId ((searchCE p.data).getD [])),
             treatmentOfId (cleanId ((searchCE p.data).getD [])),
             weekOfId (cleanId ((searchCE p.data).getD []))) := by
  unfold mergedObs samplesDict
  rw [samples_zip_eq paths hall]
  rw [dictOf_eq_self _ ?_]
  · rw [List.flatMap_map]
  · rw [List.map_map]
    have hids := sample_ids_eq_map paths hall
    rw [hids] at hnodup
    exact hnodup

/-- Witness for the amended C7 on a real-shaped path: the single sample
`CE_SC_5FU_OnOff_3` with two cells yields two rows labelled `OnOff_3` with
treatment `OnOff` and week `3`. -/
theorem merged_cells_carry_derived_attrs_witness :
    (∀ p ∈ ["results/preprocessing/CE_SC_5FU_OnOff_3/annotation.h5ad"],
      (searchCE p.data).isSome = true)
    ∧ (sample_ids ["results/preprocessing/CE_SC_5FU_OnOff_3/annotation.h5ad"]).Nodup
    ∧ mergedObs ["results/preprocessing/CE_SC_5FU_OnOff_3/annotation.h5ad"]
        (fun _ => 2)
      = ["results/preprocessing/CE_SC_5FU_OnOff_3/annotation.h5ad"].flatMap
          fun p =>
            List.replicate 2
              (String.mk (cleanId ((searchCE p.data).getD [])),
               treatmentOfId (cleanId ((searchCE p.data).getD [])),
               weekOfId (cleanId ((searchCE p.data).getD []))) :=
  ⟨by decide, by decide,
   merged_cells_carry_derived_attrs
     ["results/preprocessing/CE_SC_5FU_OnOff_3/annotation.h5ad"]
     (fun _ => 2) (by decide) (by decide)⟩
